import Mathlib

/-!
Verification of the retrieval-and-ranking subsystem of the RAG chat
repository: the tokenizer, the lexical similarity scorer, the snippet
selector and top-K search of `src/app1/src/services/ragService.ts`, the
document store (add / remove / update / persistence) of
`src/services/knowledgeBase.ts`, and the cosine similarity of
`src/app1/src/services/embeddingService.ts`.

Modeling conventions:
- Strings are character lists (`Str`); JavaScript numbers are `ℚ` for the
  lexical scores and `ℝ` for the cosine path; `Date` values are integer
  milliseconds since the Unix epoch.
- Character classes follow the ASCII part of the JavaScript regexes
  (`\w` is exactly ASCII alphanumerics plus underscore; `\s` is modeled by
  the ASCII whitespace characters).
- `Array.prototype.sort` is stable (ES2019); it is modeled by stable
  insertion sort.
-/

/-- Strings are modeled as their character sequences. -/
abbrev Str := List Char

/-- Characters matched by the JavaScript regex class `\w`:
ASCII letters, ASCII digits and the underscore. -/
def isWordChar (c : Char) : Bool := c.isAlpha || c.isDigit || c = '_'

/-- Whitespace characters (the ASCII portion of the JavaScript class `\s`). -/
def isSpaceChar (c : Char) : Bool :=
  c = ' ' || c = '\t' || c = '\n' || c = '\r' || c = '\x0b' || c = '\x0c'

/-- ASCII lower-casing of one character. Models
`String.prototype.toLowerCase` on the characters that can survive
tokenization (non-ASCII letters are replaced by spaces by the
tokenizer regex in any case). -/
def lowerChar : Char → Char
  | 'A' => 'a'
  | 'B' => 'b'
  | 'C' => 'c'
  | 'D' => 'd'
  | 'E' => 'e'
  | 'F' => 'f'
  | 'G' => 'g'
  | 'H' => 'h'
  | 'I' => 'i'
  | 'J' => 'j'
  | 'K' => 'k'
  | 'L' => 'l'
  | 'M' => 'm'
  | 'N' => 'n'
  | 'O' => 'o'
  | 'P' => 'p'
  | 'Q' => 'q'
  | 'R' => 'r'
  | 'S' => 's'
  | 'T' => 't'
  | 'U' => 'u'
  | 'V' => 'v'
  | 'W' => 'w'
  | 'X' => 'x'
  | 'Y' => 'y'
  | 'Z' => 'z'
  | c => c

/-- Lower-casing of a whole string. -/
def lowerStr (s : Str) : Str := s.map lowerChar

/-- JavaScript `String.prototype.trim` (ASCII whitespace). -/
def trim (s : Str) : Str :=
  ((s.dropWhile isSpaceChar).reverse.dropWhile isSpaceChar).reverse

/-- Accumulator loop behind `splitOnPred`.  `acc` is the piece under
construction (reversed), `inSep` records whether we are inside a run of
separator characters (a run is consumed as a single separator, exactly as
a `+`-quantified regex separator does). -/
def splitOnPredAux (p : Char → Bool) : List Char → List Char → Bool → List (List Char)
  | [], acc, _ => [acc.reverse]
  | c :: rest, acc, inSep =>
    if p c then
      if inSep then splitOnPredAux p rest [] true
      else acc.reverse :: splitOnPredAux p rest [] true
    else splitOnPredAux p rest (c :: acc) false

/-- JavaScript `String.prototype.split` on a regex matching one-or-more
characters satisfying `p` (so `split(/\s+/)` and `split(/[.!?]+/)`):
the pieces between maximal separator runs, keeping the empty boundary
pieces that the JavaScript split produces. -/
def splitOnPred (p : Char → Bool) (s : Str) : List Str :=
  splitOnPredAux p s [] false

/-- One character of the tokenizer replace step
`text.replace(/[^\w\s]/g, ' ')`: every character that is neither a word
character nor whitespace becomes a space. -/
def cleanChar (c : Char) : Char := if isWordChar c || isSpaceChar c then c else ' '

/-- `SimpleEmbeddingService.tokenize` (ragService.ts lines 48-53): replace
non-word non-space characters by spaces, split on whitespace runs, keep
the tokens of length strictly greater than 2. -/
def tokenize (text : Str) : List Str :=
  (splitOnPred isSpaceChar (text.map cleanChar)).filter (fun w => 2 < w.length)

/-- The tokenizer component as invoked at every call site of `tokenize`
in ragService.ts (`this.tokenize(x.toLowerCase())`): lower-case first,
then tokenize. -/
def tokenizeLower (s : Str) : List Str := tokenize (lowerStr s)

/-- JavaScript `String.prototype.includes`: `hasSubstr hay needle` is true
when `needle` occurs contiguously inside `hay`. -/
def hasSubstr (hay needle : Str) : Bool :=
  (List.range (hay.length + 1)).any fun i => needle.isPrefixOf (hay.drop i)

/-- The `metadata.source` enumeration of the Document interface. -/
inductive Source where
  | website
  | upload
  | manual
deriving DecidableEq

/-- Document metadata (ragService.ts lines 10-15).  `source` is `Option`
because the runtime validation of knowledgeBase.ts checks its presence
behind the static type. -/
structure DocumentMetadata where
  source : Option Source
  createdAt : Int
  url : Option Str
  fileType : Option Str
deriving DecidableEq

/-- The Document record (ragService.ts lines 5-16). -/
structure Document where
  id : Str
  title : Str
  content : Str
  embedding : Option (List ℚ)
  metadata : DocumentMetadata
deriving DecidableEq

/-- A search result (ragService.ts lines 18-22). -/
structure SearchResult where
  document : Document
  similarity : ℚ
  relevantChunk : Str
deriving DecidableEq

/-- `SimpleEmbeddingService.calculateSimilarity` (ragService.ts lines
34-46): the number of query tokens occurring among the document tokens
(repeats counted), divided by the number of query tokens; `0` when the
query has no tokens. -/
def calculateSimilarity (query : Str) (doc : Document) : ℚ :=
  let queryWords := tokenize (lowerStr query)
  let docWords := tokenize (lowerStr doc.content)
  let matchCount := queryWords.countP (fun w => decide (w ∈ docWords))
  if 0 < queryWords.length then mkRat matchCount queryWords.length else 0

/-- Sentence-terminating characters of the snippet selector split
`content.split(/[.!?]+/)`. -/
def isSentTerm (c : Char) : Bool := c = '.' || c = '!' || c = '?'

/-- The sentence list of `searchRelevantChunk`: split on sentence
terminators, keep the fragments whose trim is non-empty. -/
def sentencesOf (content : Str) : List Str :=
  (splitOnPred isSentTerm content).filter (fun s => 0 < (trim s).length)

/-- Score of one sentence in `searchRelevantChunk`: one point per query
token that matches some sentence token as a bidirectional substring
(`sw.includes(word) || word.includes(sw)`). -/
def sentenceScore (queryWords : List Str) (sentence : Str) : Nat :=
  let sentenceWords := tokenize (lowerStr sentence)
  queryWords.countP (fun w =>
    sentenceWords.any (fun sw => hasSubstr sw w || hasSubstr w sw))

/-- The forEach loop of `searchRelevantChunk` keeping the best sentence:
a later sentence replaces the current best only on a strictly greater
score. -/
def bestSentenceAux (qw : List Str) : List Str → Str → Nat → Str
  | [], best, _ => best
  | s :: rest, best, bestScore =>
    let sc := sentenceScore qw s
    if bestScore < sc then bestSentenceAux qw rest (trim s) sc
    else bestSentenceAux qw rest best bestScore

/-- `SimpleEmbeddingService.searchRelevantChunk` (ragService.ts lines
55-79).  The empty best sentence is falsy, so the fallback is the first
200 characters of the content followed by an ellipsis. -/
def searchRelevantChunk (query content : Str) : Str :=
  let queryWords := tokenize (lowerStr query)
  let best := bestSentenceAux queryWords (sentencesOf content) [] 0
  if best.isEmpty then content.take 200 ++ ['.', '.', '.'] else best

/-- Sort order used by `search`: the comparator
`(a, b) => b.similarity - a.similarity` puts larger similarities first. -/
def simOrder (a b : SearchResult) : Prop := b.similarity ≤ a.similarity

instance : DecidableRel simOrder := fun a b =>
  inferInstanceAs (Decidable (b.similarity ≤ a.similarity))

instance : IsTotal SearchResult simOrder :=
  ⟨fun a b => le_total b.similarity a.similarity⟩

instance : IsTrans SearchResult simOrder :=
  ⟨fun _ _ _ h h2 => le_trans h2 h⟩

/-- The result-collecting forEach of `KnowledgeBaseService.search`
(ragService.ts lines 150-163): every stored document is scored in
insertion order and kept when its similarity exceeds 0.1. -/
def searchCandidates (docs : List Document) (query : Str) : List SearchResult :=
  docs.filterMap (fun doc =>
    let similarity := calculateSimilarity query doc
    if mkRat 1 10 < similarity then
      some { document := doc, similarity := similarity,
             relevantChunk := searchRelevantChunk query doc.content }
    else none)

/-- `KnowledgeBaseService.search` (ragService.ts lines 150-168): collect,
sort descending by similarity with the stable ES2019 sort, truncate to
`topK`. -/
def search (docs : List Document) (query : Str) (topK : Nat) : List SearchResult :=
  ((searchCandidates docs query).insertionSort simOrder).take topK

example : tokenize ("Hello, wor-ld!".data) = ["Hello".data, "wor".data] := by decide

example : tokenizeLower ("Was ist RAG?".data) = [['w', 'a', 's'], ['i', 's', 't'], ['r', 'a', 'g']] := by decide

example : trim ("  ab c ".data) = ['a', 'b', ' ', 'c'] := by decide

/-- Gregorian calendar decomposition of a day count relative to
1970-01-01 (Howard Hinnant's civil-from-days algorithm), modeling the
year/month/day computation inside the ECMAScript
`Date.prototype.toISOString`.  `Int` division is Euclidean, which agrees
with floor division for the positive divisors used here. -/
def civilFromDays (z0 : Int) : Int × Int × Int :=
  let z := z0 + 719468
  let era := z / 146097
  let doe := z - era * 146097
  let yoe := (doe - doe / 1460 + doe / 36524 - doe / 146096) / 365
  let y := yoe + era * 400
  let doy := doe - (365 * yoe + yoe / 4 - yoe / 100)
  let mp := (5 * doy + 2) / 153
  let d := doy - (153 * mp + 2) / 5 + 1
  let m := if mp < 10 then mp + 3 else mp - 9
  (if m ≤ 2 then y + 1 else y, m, d)

/-- Day count relative to 1970-01-01 of a Gregorian date (Hinnant's
days-from-civil), modeling the `MakeDay` computation of the ECMAScript
date parser `new Date(isoString)`. -/
def daysFromCivil (y0 m d : Int) : Int :=
  let y := y0 - (if m ≤ 2 then 1 else 0)
  let era := y / 400
  let yoe := y - era * 400
  let doy := (153 * (m + (if 2 < m then -3 else 9)) + 2) / 5 + d - 1
  let doe := yoe * 365 + yoe / 4 - yoe / 100 + doy
  era * 146097 + doe - 719468

example : civilFromDays 0 = (1970, 1, 1) := by decide

example : civilFromDays 19000 = (2022, 1, 8) := by decide

example : daysFromCivil 2022 1 8 = 19000 := by decide

/-- The numeric fields carried by an ISO-8601 timestamp string
`YYYY-MM-DDTHH:mm:ss.sssZ` as produced by `Date.prototype.toISOString`
(millisecond precision).  The decimal rendering of the fields is
injective by construction and not modeled. -/
structure ISODate where
  year : Int
  month : Int
  day : Int
  hour : Int
  minute : Int
  second : Int
  ms : Int
deriving DecidableEq

/-- `Date.prototype.toISOString`: decompose a millisecond timestamp into
the ISO-8601 fields (UTC). -/
def toISOFields (t : Int) : ISODate :=
  let days := t / 86400000
  let msOfDay := t % 86400000
  let c := civilFromDays days
  { year := c.1, month := c.2.1, day := c.2.2,
    hour := msOfDay / 3600000,
    minute := msOfDay / 60000 % 60,
    second := msOfDay / 1000 % 60,
    ms := msOfDay % 1000 }

/-- Parsing of an ISO-8601 timestamp by the `Date` constructor
(ECMAScript `MakeDate(MakeDay(...), MakeTime(...))`). -/
def fromISOFields (f : ISODate) : Int :=
  daysFromCivil f.year f.month f.day * 86400000
    + f.hour * 3600000 + f.minute * 60000 + f.second * 1000 + f.ms

/-- The serialized form of one document, as written to the local-storage
blob: identical fields except that `createdAt` is an ISO-8601 string
(knowledgeBase.ts lines 179-193 and ragService.ts lines 188-201). -/
structure StoredDoc where
  id : Str
  title : Str
  content : Str
  embedding : Option (List ℚ)
  source : Option Source
  createdAt : ISODate
  url : Option Str
  fileType : Option Str
deriving DecidableEq

/-- One document of `saveToLocalStorage`: spread the document, convert
`createdAt` with `toISOString`. -/
def serializeDoc (d : Document) : StoredDoc :=
  { id := d.id, title := d.title, content := d.content,
    embedding := d.embedding, source := d.metadata.source,
    createdAt := toISOFields d.metadata.createdAt,
    url := d.metadata.url, fileType := d.metadata.fileType }

/-- One document of `loadFromLocalStorage`: spread the parsed record,
convert `createdAt` back with `new Date(string)`. -/
def deserializeDoc (s : StoredDoc) : Document :=
  { id := s.id, title := s.title, content := s.content,
    embedding := s.embedding,
    metadata := { source := s.source, createdAt := fromISOFields s.createdAt,
                  url := s.url, fileType := s.fileType } }

/-- `saveToLocalStorage` maps `serializeDoc` over the document array. -/
def serializeDocs (docs : List Document) : List StoredDoc :=
  docs.map serializeDoc

/-- `loadFromLocalStorage` maps `deserializeDoc` over the parsed array. -/
def deserializeDocs (stored : List StoredDoc) : List Document :=
  stored.map deserializeDoc

/-- The state of a `KnowledgeBaseService`: the in-memory document array
and the local-storage blob (`none` models an absent key; write failures
of the best-effort `try/catch` persistence are not modeled). -/
structure Store where
  documents : List Document
  storage : Option (List StoredDoc)
deriving DecidableEq

/-- `KnowledgeBaseService.removeDocument` (knowledgeBase.ts lines
139-147, identical in ragService.ts lines 174-182): `findIndex` on the
id, `splice` the hit and persist, otherwise report `false` untouched.
`findIdx?`/`eraseIdx` model `findIndex`/`splice(i, 1)`. -/
def removeDocument (st : Store) (id : Str) : Bool × Store :=
  match st.documents.findIdx? (fun doc => doc.id == id) with
  | some i =>
      let docs := st.documents.eraseIdx i
      (true, { documents := docs, storage := some (serializeDocs docs) })
  | none => (false, st)

/-- `KnowledgeBaseService.getDocumentById` (knowledgeBase.ts lines
135-137). -/
def getDocumentById (st : Store) (id : Str) : Option Document :=
  st.documents.find? (fun doc => doc.id == id)

/-- The caller-supplied part of the metadata of `addDocument`
(`PartialDocumentMetadata` of knowledgeBase.ts; `source` is `Option`
because the runtime validation checks its presence). -/
structure PartialDocumentMetadata where
  source : Option Source
  url : Option Str
  fileType : Option Str
deriving DecidableEq

/-- `KnowledgeBaseService.validateDocument` (knowledgeBase.ts lines
215-221): truthiness of `title?.trim()`, `content?.trim()` and
`metadata?.source` (a present enum value is a non-empty string, hence
truthy). -/
def validateDocument (title content : Str) (source : Option Source) : Bool :=
  !(trim title).isEmpty && !(trim content).isEmpty && source.isSome

/-- The document record built by `addDocument` on success: the fresh id,
the given fields, an empty embedding (real embeddings are unused) and
`createdAt = now`. -/
def newDocument (title content : Str) (metadata : PartialDocumentMetadata)
    (newId : Str) (now : Int) : Document :=
  { id := newId, title := title, content := content,
    embedding := some [],
    metadata := { source := metadata.source, createdAt := now,
                  url := metadata.url, fileType := metadata.fileType } }

/-- `KnowledgeBaseService.addDocument` (knowledgeBase.ts lines 84-119):
validate, then append a document with the fresh id, the given fields, an
empty embedding and `createdAt = now`, and persist.  The nondeterministic
`generateId()` and `new Date()` are passed as the `newId` and `now`
parameters.  A thrown validation error leaves the store unchanged. -/
def addDocument (st : Store) (title content : Str)
    (metadata : PartialDocumentMetadata) (newId : Str) (now : Int) :
    Except Str Str × Store :=
  if validateDocument title content metadata.source then
    let docs := st.documents ++ [newDocument title content metadata newId now]
    (Except.ok newId, { documents := docs, storage := some (serializeDocs docs) })
  else
    (Except.error ("Invalid document data: title, content, and source are required".data), st)

/-- The `updates` argument of `updateDocument`
(`Partial<Pick<Document, 'title' | 'content'>>`). -/
structure DocUpdate where
  title : Option Str
  content : Option Str
deriving DecidableEq

/-- The object spread `{...documents[index], ...updates}`: an absent
update field keeps the document's value. -/
def applyUpdate (d : Document) (u : DocUpdate) : Document :=
  { d with title := u.title.getD d.title, content := u.content.getD d.content }

/-- The `findIndex` plus in-place assignment of `updateDocument`: replace
the first document carrying `id`, `none` when there is no hit. -/
def updateFirst (docs : List Document) (id : Str) (u : DocUpdate) :
    Option (List Document) :=
  match docs with
  | [] => none
  | d :: rest =>
      if d.id = id then some (applyUpdate d u :: rest)
      else (updateFirst rest id u).map (fun l => d :: l)

/-- `KnowledgeBaseService.updateDocument` (knowledgeBase.ts lines
149-160): replace the hit by its spread with the updates and persist,
otherwise report `false` untouched. -/
def updateDocument (st : Store) (id : Str) (u : DocUpdate) : Bool × Store :=
  match updateFirst st.documents id u with
  | some docs => (true, { documents := docs, storage := some (serializeDocs docs) })
  | none => (false, st)

/-- Dot product of `EmbeddingService.cosineSimilarity` (embeddingService.ts
line 65): `a.reduce((sum, a_i, i) => sum + a_i * b[i], 0)` under the
equal-length guard. -/
def dotProduct (a b : List ℝ) : ℝ :=
  (a.zip b).foldl (fun s p => s + p.1 * p.2) 0

/-- The sum of squares folded exactly as in
`a.reduce((sum, a_i) => sum + a_i * a_i, 0)`. -/
def sumSquares (v : List ℝ) : ℝ :=
  v.foldl (fun s x => s + x * x) 0

/-- Vector magnitude `Math.sqrt(reduce ...)` (embeddingService.ts lines
66-67). -/
noncomputable def magnitude (v : List ℝ) : ℝ :=
  Real.sqrt (sumSquares v)

/-- `EmbeddingService.cosineSimilarity` (embeddingService.ts lines 60-75):
throws on unequal lengths (`none`), returns `0` when either magnitude is
zero, otherwise the dot product over the product of magnitudes. -/
noncomputable def cosineSimilarity (a b : List ℝ) : Option ℝ :=
  letI := Classical.propDecidable (magnitude a = 0 ∨ magnitude b = 0)
  if a.length ≠ b.length then none
  else if magnitude a = 0 ∨ magnitude b = 0 then some 0
  else some (dotProduct a b / (magnitude a * magnitude b))

/-- Euclidean division of an integer by a positive constant brackets the
dividend. -/
theorem div_bounds {x k q : Int} (hk : 0 < k) (hq : x / k = q) :
    k * q ≤ x ∧ x < k * (q + 1) := by
  subst hq
  have h1 := Int.ediv_add_emod x k
  have h2 := Int.emod_nonneg x (by omega : k ≠ 0)
  have h3 := Int.emod_lt_of_pos x hk
  have h4 : k * (x / k + 1) = k * (x / k) + k := by ring
  exact ⟨by linarith, by linarith⟩

set_option maxHeartbeats 4000000 in
/-- Core correctness of the year-of-era formula of `civilFromDays`: for a
day-of-era in `[0, 146097)` the computed year-of-era lies in `[0, 400)`
and the day-of-year it induces lies in `[0, 365]`. -/
theorem yoe_core (doe a b c yoe j k : Int)
    (h0 : 0 ≤ doe) (h1 : doe ≤ 146096)
    (ha : 1460*a ≤ doe ∧ doe < 1460*(a+1))
    (hb : 36524*b ≤ doe ∧ doe < 36524*(b+1))
    (hc : 146096*c ≤ doe ∧ doe < 146096*(c+1))
    (hy : 365*yoe ≤ doe - a + b - c ∧ doe - a + b - c < 365*(yoe+1))
    (hj : 4*j ≤ yoe ∧ yoe < 4*(j+1))
    (hk : 100*k ≤ yoe ∧ yoe < 100*(k+1)) :
    0 ≤ yoe ∧ yoe ≤ 399 ∧ 365*yoe + j - k ≤ doe ∧ doe - (365*yoe + j - k) ≤ 365 := by
  have hbr : b = 0 ∨ b = 1 ∨ b = 2 ∨ b = 3 ∨ b = 4 := by omega
  have hkr : k = 0 ∨ k = 1 ∨ k = 2 ∨ k = 3 := by omega
  rcases hbr with rfl|rfl|rfl|rfl|rfl <;> rcases hkr with rfl|rfl|rfl|rfl <;> omega

set_option maxHeartbeats 4000000 in
/-- The calendar decomposition is inverted by the day-number computation:
the date parser recovers the exact day count that `toISOString`
decomposed. -/
theorem daysFromCivil_civilFromDays (z : Int) :
    daysFromCivil (civilFromDays z).1 (civilFromDays z).2.1 (civilFromDays z).2.2 = z := by
  dsimp only [civilFromDays]
  obtain ⟨era, hera⟩ : ∃ q, (z + 719468) / 146097 = q := ⟨_, rfl⟩
  rw [hera]
  have Bera := div_bounds (by norm_num) hera
  obtain ⟨a, ha⟩ : ∃ q, (z + 719468 - era * 146097) / 1460 = q := ⟨_, rfl⟩
  rw [ha]
  have Ba := div_bounds (by norm_num) ha
  obtain ⟨b, hb⟩ : ∃ q, (z + 719468 - era * 146097) / 36524 = q := ⟨_, rfl⟩
  rw [hb]
  have Bb := div_bounds (by norm_num) hb
  obtain ⟨c, hc⟩ : ∃ q, (z + 719468 - era * 146097) / 146096 = q := ⟨_, rfl⟩
  rw [hc]
  have Bc := div_bounds (by norm_num) hc
  obtain ⟨yoe, hyoe⟩ : ∃ q, (z + 719468 - era * 146097 - a + b - c) / 365 = q := ⟨_, rfl⟩
  rw [hyoe]
  have By := div_bounds (by norm_num) hyoe
  obtain ⟨j, hj⟩ : ∃ q, yoe / 4 = q := ⟨_, rfl⟩
  rw [hj]
  have Bj := div_bounds (by norm_num) hj
  obtain ⟨k, hk⟩ : ∃ q, yoe / 100 = q := ⟨_, rfl⟩
  rw [hk]
  have Bk := div_bounds (by norm_num) hk
  have core := yoe_core (z + 719468 - era * 146097) a b c yoe j k
    (by omega) (by omega) Ba Bb Bc By Bj Bk
  obtain ⟨mp, hmp⟩ : ∃ q,
      (5 * (z + 719468 - era * 146097 - (365 * yoe + j - k)) + 2) / 153 = q := ⟨_, rfl⟩
  rw [hmp]
  have Bmp := div_bounds (by norm_num) hmp
  obtain ⟨dd, hdd⟩ : ∃ q, (153 * mp + 2) / 5 = q := ⟨_, rfl⟩
  rw [hdd]
  have Bdd := div_bounds (by norm_num) hdd
  have hmp0 : 0 ≤ mp ∧ mp ≤ 11 := by omega
  by_cases h1 : mp < 10
  · rw [if_pos h1, if_neg (show ¬ (mp + 3 ≤ 2) by omega)]
    dsimp only [daysFromCivil]
    rw [if_neg (show ¬ (mp + 3 ≤ 2) by omega), if_pos (show 2 < mp + 3 by omega)]
    obtain ⟨era2, hera2⟩ : ∃ q, (yoe + era * 400 - 0) / 400 = q := ⟨_, rfl⟩
    rw [hera2]
    have B2 := div_bounds (by norm_num) hera2
    have he2 : era2 = era := by omega
    obtain ⟨j2, hj2⟩ : ∃ q, (yoe + era * 400 - 0 - era2 * 400) / 4 = q := ⟨_, rfl⟩
    rw [hj2]
    have Bj2 := div_bounds (by norm_num) hj2
    have hj2e : j2 = j := by omega
    obtain ⟨k2, hk2⟩ : ∃ q, (yoe + era * 400 - 0 - era2 * 400) / 100 = q := ⟨_, rfl⟩
    rw [hk2]
    have Bk2 := div_bounds (by norm_num) hk2
    have hk2e : k2 = k := by omega
    obtain ⟨q6, hq6⟩ : ∃ q, (153 * (mp + 3 + -3) + 2) / 5 = q := ⟨_, rfl⟩
    rw [hq6]
    have B6 := div_bounds (by norm_num) hq6
    have hq6e : q6 = dd := by omega
    omega
  · rw [if_neg h1, if_pos (show mp - 9 ≤ 2 by omega)]
    dsimp only [daysFromCivil]
    rw [if_pos (show mp - 9 ≤ 2 by omega), if_neg (show ¬ (2 < mp - 9) by omega)]
    obtain ⟨era2, hera2⟩ : ∃ q, (yoe + era * 400 + 1 - 1) / 400 = q := ⟨_, rfl⟩
    rw [hera2]
    have B2 := div_bounds (by norm_num) hera2
    have he2 : era2 = era := by omega
    obtain ⟨j2, hj2⟩ : ∃ q, (yoe + era * 400 + 1 - 1 - era2 * 400) / 4 = q := ⟨_, rfl⟩
    rw [hj2]
    have Bj2 := div_bounds (by norm_num) hj2
    have hj2e : j2 = j := by omega
    obtain ⟨k2, hk2⟩ : ∃ q, (yoe + era * 400 + 1 - 1 - era2 * 400) / 100 = q := ⟨_, rfl⟩
    rw [hk2]
    have Bk2 := div_bounds (by norm_num) hk2
    have hk2e : k2 = k := by omega
    obtain ⟨q6, hq6⟩ : ∃ q, (153 * (mp - 9 + 9) + 2) / 5 = q := ⟨_, rfl⟩
    rw [hq6]
    have B6 := div_bounds (by norm_num) hq6
    have hq6e : q6 = dd := by omega
    omega

/-- Formatting a millisecond timestamp as ISO-8601 fields and parsing the
fields back is the identity: no precision below one millisecond exists to
lose, and the calendar decomposition is exactly inverted. -/
theorem fromISOFields_toISOFields (t : Int) :
    fromISOFields (toISOFields t) = t := by
  dsimp only [toISOFields, fromISOFields]
  rw [daysFromCivil_civilFromDays]
  obtain ⟨day, hday⟩ : ∃ q, t / 86400000 = q := ⟨_, rfl⟩
  rw [hday]
  have Bday := div_bounds (by norm_num) hday
  obtain ⟨r, hr⟩ : ∃ q, t % 86400000 = q := ⟨_, rfl⟩
  rw [hr]
  have hr2 : t - 86400000 * day = r := by
    have := Int.ediv_add_emod t 86400000
    omega
  obtain ⟨hh, hhh⟩ : ∃ q, r / 3600000 = q := ⟨_, rfl⟩
  rw [hhh]
  have Bh := div_bounds (by norm_num) hhh
  obtain ⟨q60, hq60⟩ : ∃ q, r / 60000 = q := ⟨_, rfl⟩
  rw [hq60]
  have B60 := div_bounds (by norm_num) hq60
  obtain ⟨mi, hmi⟩ : ∃ q, q60 % 60 = q := ⟨_, rfl⟩
  rw [hmi]
  have hmi2 : q60 - 60 * (q60 / 60) = mi := by
    have := Int.ediv_add_emod q60 60
    omega
  have Bmi := div_bounds (by norm_num : (0:Int) < 60) (rfl : q60 / 60 = q60 / 60)
  obtain ⟨q1000, hq1000⟩ : ∃ q, r / 1000 = q := ⟨_, rfl⟩
  rw [hq1000]
  have B1000 := div_bounds (by norm_num) hq1000
  obtain ⟨se, hse⟩ : ∃ q, q1000 % 60 = q := ⟨_, rfl⟩
  rw [hse]
  have hse2 : q1000 - 60 * (q1000 / 60) = se := by
    have := Int.ediv_add_emod q1000 60
    omega
  have Bse := div_bounds (by norm_num : (0:Int) < 60) (rfl : q1000 / 60 = q1000 / 60)
  obtain ⟨mss, hmss⟩ : ∃ q, r % 1000 = q := ⟨_, rfl⟩
  rw [hmss]
  have hmss2 : r - 1000 * q1000 = mss := by
    have := Int.ediv_add_emod r 1000
    omega
  omega

/-- One document survives the persistence round trip unchanged. -/
theorem deserializeDoc_serializeDoc (d : Document) :
    deserializeDoc (serializeDoc d) = d := by
  dsimp only [deserializeDoc, serializeDoc]
  rw [fromISOFields_toISOFields]

/-- C8: for every sequence of stored documents, serializing the store
(converting each `createdAt` to the ISO-8601 fields) and deserializing it
reconstructs the documents exactly; in particular every reconstructed
`createdAt` equals the original to millisecond precision. -/
theorem storage_roundTrip (docs : List Document) :
    deserializeDocs (serializeDocs docs) = docs := by
  unfold deserializeDocs serializeDocs
  rw [List.map_map]
  have h : deserializeDoc ∘ serializeDoc = id := by
    funext d
    exact deserializeDoc_serializeDoc d
  rw [h, List.map_id]

/-- A demo document used by the concrete witnesses (content from the
default knowledge base of ragService.ts). -/
def demoDocRAG : Document :=
  { id := "doc1".data,
    title := "RAG (Retrieval-Augmented Generation)".data,
    content := "RAG ist eine Technik. Dabei wird Information abgerufen.".data,
    embedding := none,
    metadata := { source := some Source.manual, createdAt := 1700000000000,
                  url := none, fileType := none } }

/-- A second demo document for the concrete witnesses. -/
def demoDocMistral : Document :=
  { id := "doc2".data,
    title := "Mistral AI Information".data,
    content := "Mistral AI ist ein Unternehmen.".data,
    embedding := none,
    metadata := { source := some Source.manual, createdAt := 1700000000001,
                  url := none, fileType := none } }

/-- The demo store contents. -/
def demoDocs : List Document := [demoDocMistral, demoDocRAG]

/-- C2: for every query string and document, the lexical similarity score
equals the number of query tokens occurring among the document tokens
(repeats counted, not deduplicated) divided by the total number of query
tokens when the query has at least one token, and `0` when the query
tokenizes to the empty sequence.  Determinism and purity hold because
`calculateSimilarity` is a function of its two arguments. -/
theorem calculateSimilarity_spec (q : Str) (d : Document) :
    (tokenizeLower q ≠ [] →
      calculateSimilarity q d =
        ((tokenizeLower q).countP (fun w => decide (w ∈ tokenizeLower d.content)) : ℚ) /
          ((tokenizeLower q).length : ℚ)) ∧
    (tokenizeLower q = [] → calculateSimilarity q d = 0) := by
  unfold calculateSimilarity tokenizeLower
  constructor
  · intro h
    rw [if_pos (List.length_pos.mpr h), Rat.mkRat_eq_div]
    norm_num
  · intro h
    rw [h]
    rfl

/-- Witness for C2 at a concrete query and document: the query
`"Was ist RAG?"` has tokens and the score is the claimed quotient
(concretely 2/3). -/
theorem calculateSimilarity_spec_witness :
    tokenizeLower ("Was ist RAG?".data) ≠ [] ∧
    calculateSimilarity ("Was ist RAG?".data) demoDocRAG =
      ((tokenizeLower ("Was ist RAG?".data)).countP
          (fun w => decide (w ∈ tokenizeLower demoDocRAG.content)) : ℚ) /
        ((tokenizeLower ("Was ist RAG?".data)).length : ℚ) :=
  ⟨by decide, (calculateSimilarity_spec ("Was ist RAG?".data) demoDocRAG).1 (by decide)⟩

example : calculateSimilarity ("Was ist RAG?".data) demoDocRAG = mkRat 2 3 := by
  decide

/-- C10: a query that tokenizes to the empty sequence gives every document
similarity 0, which does not exceed the 0.1 threshold, so `search`
returns the empty result list for every store state. -/
theorem search_empty_query (docs : List Document) (q : Str) (k : Nat)
    (h : tokenizeLower q = []) : search docs q k = [] := by
  have h2 : tokenize (lowerStr q) = [] := h
  have hsim : ∀ d, calculateSimilarity q d = 0 := by
    intro d
    unfold calculateSimilarity
    rw [h2]
    rfl
  have hcand : searchCandidates docs q = [] := by
    unfold searchCandidates
    simp only [hsim]
    have hth : ¬ (mkRat 1 10 < (0 : ℚ)) := by decide
    simp [hth]
  unfold search
  rw [hcand]
  simp [List.insertionSort]

/-- Witness for C10: the query `" a b !?"` (short words and punctuation
only) tokenizes to the empty sequence and returns no results on the demo
store. -/
theorem search_empty_query_witness :
    tokenizeLower (" a b !?".data) = [] ∧ search demoDocs (" a b !?".data) 3 = [] :=
  ⟨by decide, search_empty_query demoDocs (" a b !?".data) 3 (by decide)⟩

/-- The ASCII uppercase letters; a string is lowercase exactly when it
contains none of them. -/
def upperChars : List Char :=
  ['A', 'B', 'C', 'D', 'E', 'F', 'G', 'H', 'I', 'J', 'K', 'L', 'M',
   'N', 'O', 'P', 'Q', 'R', 'S', 'T', 'U', 'V', 'W', 'X', 'Y', 'Z']

/-- Lower-casing never produces an ASCII uppercase letter. -/
theorem lowerChar_not_upper (c : Char) : lowerChar c ∉ upperChars := by
  rw [lowerChar.eq_def]
  split
  case _ => decide
  case _ => decide
  case _ => decide
  case _ => decide
  case _ => decide
  case _ => decide
  case _ => decide
  case _ => decide
  case _ => decide
  case _ => decide
  case _ => decide
  case _ => decide
  case _ => decide
  case _ => decide
  case _ => decide
  case _ => decide
  case _ => decide
  case _ => decide
  case _ => decide
  case _ => decide
  case _ => decide
  case _ => decide
  case _ => decide
  case _ => decide
  case _ => decide
  case _ => decide
  case _ =>
    intro hmem
    fin_cases hmem <;> simp_all

/-- Every character of every piece produced by the splitter is a
non-separator character of the input (or comes from the accumulator). -/
theorem mem_splitOnPredAux {p : Char → Bool} :
    ∀ (l acc : List Char) (inSep : Bool) (t : List Char),
      t ∈ splitOnPredAux p l acc inSep → ∀ c ∈ t, (c ∈ l ∧ p c = false) ∨ c ∈ acc := by
  intro l
  induction l with
  | nil =>
    intro acc inSep t ht c hc
    simp only [splitOnPredAux, List.mem_singleton] at ht
    subst ht
    right
    exact List.mem_reverse.mp hc
  | cons c0 rest ih =>
    intro acc inSep t ht c hc
    simp only [splitOnPredAux] at ht
    by_cases hp : p c0 = true
    · rw [if_pos hp] at ht
      cases inSep with
      | true =>
        rcases ih [] true t ht c hc with ⟨hr, hpc⟩ | habs
        · exact Or.inl ⟨List.mem_cons_of_mem c0 hr, hpc⟩
        · exact absurd habs (List.not_mem_nil c)
      | false =>
        rcases List.mem_cons.mp ht with rfl | ht2
        · right
          exact List.mem_reverse.mp hc
        · rcases ih [] true t ht2 c hc with ⟨hr, hpc⟩ | habs
          · exact Or.inl ⟨List.mem_cons_of_mem c0 hr, hpc⟩
          · exact absurd habs (List.not_mem_nil c)
    · rw [if_neg hp] at ht
      rcases ih (c0 :: acc) false t ht c hc with ⟨hr, hpc⟩ | hacc
      · exact Or.inl ⟨List.mem_cons_of_mem c0 hr, hpc⟩
      · rcases List.mem_cons.mp hacc with rfl | hacc2
        · exact Or.inl ⟨List.mem_cons_self c rest, by simpa using hp⟩
        · exact Or.inr hacc2

/-- A replaced character that is not whitespace is a word character. -/
theorem isWordChar_of_clean {x : Char} (h : isSpaceChar (cleanChar x) = false) :
    isWordChar (cleanChar x) = true := by
  unfold cleanChar at *
  split_ifs at * with hx
  · rcases (by simpa using hx : isWordChar x = true ∨ isSpaceChar x = true) with hw | hs
    · exact hw
    · rw [hs] at h
      exact absurd h (by simp)
  · exact absurd h (by decide)

/-- The replace step introduces no uppercase letter. -/
theorem cleanChar_not_upper {x : Char} (h : x ∉ upperChars) : cleanChar x ∉ upperChars := by
  unfold cleanChar
  split_ifs
  · exact h
  · decide

/-- C3: the tokenizer (lower-casing plus `tokenize`, as at every call
site) is total, maps the empty string to the empty token sequence, and
every produced token has length strictly greater than 2 and consists of
word characters only (so the replaced punctuation and the whitespace are
gone) with no ASCII uppercase letter (lowercase output).  That the
tokens arise by replacing the non-word characters with spaces and
splitting on whitespace is the definition of `tokenize`. -/
theorem tokenizer_spec :
    tokenizeLower [] = [] ∧
    ∀ s : Str, ∀ t ∈ tokenizeLower s,
      2 < t.length ∧ ∀ c ∈ t, isWordChar c = true ∧ c ∉ upperChars := by
  constructor
  · rfl
  · intro s t ht
    have ht2 := List.mem_filter.mp ht
    have hlen : 2 < t.length := by simpa using ht2.2
    refine ⟨hlen, fun c hc => ?_⟩
    have hmem := mem_splitOnPredAux _ [] false t ht2.1 c hc
    rcases hmem with ⟨hin, hns⟩ | habs
    · rcases List.mem_map.mp hin with ⟨x, hx, rfl⟩
      refine ⟨isWordChar_of_clean hns, ?_⟩
      rcases List.mem_map.mp hx with ⟨c0, _, rfl⟩
      exact cleanChar_not_upper (lowerChar_not_upper c0)
    · exact absurd habs (List.not_mem_nil c)

/-- Witness for C3 at a concrete input: `"Hello, World!"` produces the
token `"hello"`, which is longer than 2 characters, all word characters,
and lowercase. -/
theorem tokenizer_spec_witness :
    ("hello".data ∈ tokenizeLower ("Hello, World!".data)) ∧
    (2 < ("hello".data).length ∧
      ∀ c ∈ ("hello".data), isWordChar c = true ∧ c ∉ upperChars) :=
  ⟨by decide, tokenizer_spec.2 ("Hello, World!".data) ("hello".data) (by decide)⟩

/-- The find-index/erase pair of `removeDocument`: with distinct ids, a
present id is found and erasing the hit equals filtering the id out; an
absent id is not found. -/
theorem findIdx_erase_spec :
    ∀ (docs : List Document) (id : Str), (docs.map Document.id).Nodup →
      ((∀ d ∈ docs, d.id ≠ id) → docs.findIdx? (fun d => d.id == id) = none) ∧
      ((∃ d ∈ docs, d.id = id) → ∃ i, docs.findIdx? (fun d => d.id == id) = some i ∧
          docs.eraseIdx i = docs.filter (fun d => d.id != id)) := by
  intro docs
  induction docs with
  | nil =>
    intro id _
    refine ⟨fun _ => rfl, fun h => ?_⟩
    simp at h
  | cons d rest ih =>
    intro id hnodup
    rw [List.map_cons, List.nodup_cons] at hnodup
    by_cases hd : d.id = id
    · constructor
      · intro hall
        exact absurd hd (hall d (List.mem_cons_self d rest))
      · intro _
        refine ⟨0, ?_, ?_⟩
        · rw [List.findIdx?_cons]
          simp [hd]
        · rw [List.eraseIdx_cons_zero, List.filter_cons]
          have hne : (d.id != id) = false := by simp [hd]
          rw [hne]
          simp only [if_neg Bool.false_ne_true]
          have : ∀ x ∈ rest, (x.id != id) = true := by
            intro x hx
            have : x.id ≠ id := by
              intro heq
              apply hnodup.1
              have hdx : d.id = x.id := hd.trans heq.symm
              rw [hdx]
              exact List.mem_map_of_mem Document.id hx
            simpa using this
          rw [List.filter_eq_self.mpr this]
    · constructor
      · intro hall
        rw [List.findIdx?_cons]
        have : (d.id == id) = false := by simpa using hd
        rw [this]
        simp only [if_neg Bool.false_ne_true]
        rw [List.findIdx?_succ, (ih id hnodup.2).1 (fun x hx => hall x (List.mem_cons_of_mem d hx))]
        rfl
      · intro hex
        rcases hex with ⟨x, hx, hxid⟩
        rcases List.mem_cons.mp hx with rfl | hx2
        · exact absurd hxid hd
        · obtain ⟨i, hfind, herase⟩ := (ih id hnodup.2).2 ⟨x, hx2, hxid⟩
          refine ⟨i + 1, ?_, ?_⟩
          · rw [List.findIdx?_cons]
            have : (d.id == id) = false := by simpa using hd
            rw [this]
            simp only [if_neg Bool.false_ne_true]
            rw [List.findIdx?_succ, hfind]
            rfl
          · rw [List.eraseIdx_cons_succ, herase, List.filter_cons]
            have : (d.id != id) = true := by simpa using hd
            rw [this]
            simp

/-- The demo store used by the concrete witnesses. -/
def demoStore : Store := { documents := demoDocs, storage := none }

/-- C6: on a store whose document ids are distinct (the store invariant),
`removeDocument` of a present id returns `true`, removes exactly the
document carrying that id (every other document is kept, in order),
persists the new list, and a subsequent `getDocumentById` misses; of an
absent id it returns `false` with the store unchanged. -/
theorem removeDocument_spec (st : Store) (id : Str)
    (hnodup : (st.documents.map Document.id).Nodup) :
    ((∃ d ∈ st.documents, d.id = id) →
      (removeDocument st id).1 = true ∧
      (removeDocument st id).2.documents = st.documents.filter (fun d => d.id != id) ∧
      (removeDocument st id).2.storage =
        some (serializeDocs (st.documents.filter (fun d => d.id != id))) ∧
      getDocumentById (removeDocument st id).2 id = none) ∧
    ((∀ d ∈ st.documents, d.id ≠ id) → removeDocument st id = (false, st)) := by
  have H := findIdx_erase_spec st.documents id hnodup
  constructor
  · intro hex
    obtain ⟨i, hfind, herase⟩ := H.2 hex
    have hrem : removeDocument st id =
        (true, { documents := st.documents.eraseIdx i,
                 storage := some (serializeDocs (st.documents.eraseIdx i)) }) := by
      unfold removeDocument
      rw [hfind]
    rw [hrem, herase]
    refine ⟨rfl, rfl, rfl, ?_⟩
    unfold getDocumentById
    dsimp only
    apply List.find?_eq_none.mpr
    intro x hx
    have hne := (List.mem_filter.mp hx).2
    simpa using hne
  · intro hall
    unfold removeDocument
    rw [H.1 hall]

/-- Witness for C6: removing the present id `"doc1"` from the demo store
reports success and the document is gone. -/
theorem removeDocument_spec_witness :
    (removeDocument demoStore ("doc1".data)).1 = true ∧
    getDocumentById (removeDocument demoStore ("doc1".data)).2 ("doc1".data) = none := by
  have h := (removeDocument_spec demoStore ("doc1".data) (by decide)).1
    ⟨demoDocRAG, by decide, by decide⟩
  exact ⟨h.1, h.2.2.2⟩

/-- The absent-id case at a concrete input: the `false` branch leaves the
store untouched. -/
example : removeDocument demoStore ("nope".data) = (false, demoStore) := by
  decide

/-- First-match update characterization: an absent id updates nothing; a
present id yields an updated list in which every document keeps its id,
embedding and metadata, and every document whose id differs is untouched. -/
theorem updateFirst_spec :
    ∀ (docs : List Document) (id : Str) (u : DocUpdate),
      ((∀ d ∈ docs, d.id ≠ id) → updateFirst docs id u = none) ∧
      ((∃ d ∈ docs, d.id = id) → ∃ docs2, updateFirst docs id u = some docs2 ∧
        List.Forall₂ (fun old new =>
          new.id = old.id ∧ new.embedding = old.embedding ∧
          new.metadata = old.metadata ∧ (old.id ≠ id → new = old)) docs docs2) := by
  intro docs
  induction docs with
  | nil =>
    intro id u
    exact ⟨fun _ => rfl, by simp⟩
  | cons d rest ih =>
    intro id u
    by_cases hd : d.id = id
    · constructor
      · intro hall
        exact absurd hd (hall d (List.mem_cons_self d rest))
      · intro _
        refine ⟨applyUpdate d u :: rest, ?_, ?_⟩
        · unfold updateFirst
          rw [if_pos hd]
        · refine List.Forall₂.cons ⟨rfl, rfl, rfl, fun hne => absurd hd hne⟩ ?_
          exact List.forall₂_same.mpr (fun x _ => ⟨rfl, rfl, rfl, fun _ => rfl⟩)
    · constructor
      · intro hall
        unfold updateFirst
        rw [if_neg hd, (ih id u).1 (fun x hx => hall x (List.mem_cons_of_mem d hx))]
        rfl
      · intro hex
        rcases hex with ⟨x, hx, hxid⟩
        rcases List.mem_cons.mp hx with rfl | hx2
        · exact absurd hxid hd
        · obtain ⟨docs2, hupd, hfa⟩ := (ih id u).2 ⟨x, hx2, hxid⟩
          refine ⟨d :: docs2, ?_, ?_⟩
          · unfold updateFirst
            rw [if_neg hd, hupd]
            rfl
          · exact List.Forall₂.cons ⟨rfl, rfl, rfl, fun _ => rfl⟩ hfa

/-- C9: updating an existing id succeeds and changes at most the title
and content of the hit: its id, embedding and every metadata field are
unchanged, and every document whose id differs is entirely unchanged. -/
theorem updateDocument_spec (st : Store) (id : Str) (u : DocUpdate)
    (hex : ∃ d ∈ st.documents, d.id = id) :
    (updateDocument st id u).1 = true ∧
    List.Forall₂ (fun old new =>
        new.id = old.id ∧ new.embedding = old.embedding ∧
        new.metadata = old.metadata ∧ (old.id ≠ id → new = old))
      st.documents (updateDocument st id u).2.documents := by
  obtain ⟨docs2, hupd, hfa⟩ := (updateFirst_spec st.documents id u).2 hex
  unfold updateDocument
  rw [hupd]
  exact ⟨rfl, hfa⟩

/-- A demo update used by the C9 witness. -/
def demoUpdate : DocUpdate := { title := some ("New title".data), content := none }

/-- Witness for C9 at the demo store and an existing id. -/
theorem updateDocument_spec_witness :
    (updateDocument demoStore ("doc1".data) demoUpdate).1 = true ∧
    List.Forall₂ (fun old new =>
        new.id = old.id ∧ new.embedding = old.embedding ∧
        new.metadata = old.metadata ∧ (old.id ≠ ("doc1".data) → new = old))
      demoStore.documents (updateDocument demoStore ("doc1".data) demoUpdate).2.documents :=
  updateDocument_spec demoStore ("doc1".data) demoUpdate ⟨demoDocRAG, by decide, by decide⟩

/-- C7: `addDocument` fails with the explicit validation error and leaves
the store unchanged exactly when the title or the content trims to empty
or `metadata.source` is missing (a value outside the enumeration cannot
exist behind the closed `Source` type); otherwise it succeeds, returns
the fresh id, appends the new document and persists. -/
theorem addDocument_spec (st : Store) (title content : Str)
    (metadata : PartialDocumentMetadata) (newId : Str) (now : Int) :
    ((trim title = [] ∨ trim content = [] ∨ metadata.source = none) →
      addDocument st title content metadata newId now =
        (Except.error ("Invalid document data: title, content, and source are required".data),
         st)) ∧
    (trim title ≠ [] → trim content ≠ [] → metadata.source.isSome →
      addDocument st title content metadata newId now =
        (Except.ok newId,
         { documents := st.documents ++ [newDocument title content metadata newId now],
           storage := some (serializeDocs
             (st.documents ++ [newDocument title content metadata newId now])) })) := by
  constructor
  · intro h
    have hv : validateDocument title content metadata.source = false := by
      unfold validateDocument
      rcases h with h | h | h <;> simp [h]
    unfold addDocument
    rw [if_neg]
    rw [hv]
    simp
  · intro h1 h2 h3
    have hv : validateDocument title content metadata.source = true := by
      unfold validateDocument
      simp [List.isEmpty_iff, h1, h2, h3]
    unfold addDocument
    rw [if_pos hv]

/-- The metadata argument used by the C7 witness. -/
def demoMeta : PartialDocumentMetadata :=
  { source := some Source.manual, url := none, fileType := none }

/-- Witness for C7: a whitespace-only title is rejected with the explicit
validation error and the demo store is unchanged. -/
theorem addDocument_spec_witness :
    addDocument demoStore ("  ".data) ("some content".data) demoMeta ("id9".data) 0 =
      (Except.error ("Invalid document data: title, content, and source are required".data),
       demoStore) :=
  (addDocument_spec demoStore ("  ".data) ("some content".data) demoMeta ("id9".data) 0).1
    (Or.inl (by decide))

/-- The success side of a valid add at a concrete input: the document is
appended. -/
example :
    (addDocument demoStore ("T".data) ("some content".data) demoMeta ("id9".data) 0).2.documents.length = 3 := by
  decide

/-- Filtering for one similarity value commutes with an ordered insert:
the inserted element, when selected, lands in front of the selected
elements (everything passed over has a strictly larger similarity). -/
theorem filter_simEq_orderedInsert (s : ℚ) (x : SearchResult) (l : List SearchResult) :
    (List.orderedInsert simOrder x l).filter (fun r => decide (r.similarity = s)) =
      if x.similarity = s then
        x :: l.filter (fun r => decide (r.similarity = s))
      else l.filter (fun r => decide (r.similarity = s)) := by
  induction l with
  | nil =>
    by_cases hx : x.similarity = s <;> simp [List.orderedInsert, List.filter, hx]
  | cons y t ih =>
    rw [List.orderedInsert]
    by_cases hr : simOrder x y
    · rw [if_pos hr]
      by_cases hx : x.similarity = s <;> simp [List.filter_cons, hx]
    · rw [if_neg hr]
      rw [List.filter_cons, ih]
      by_cases hx : x.similarity = s
      · have hy : ¬ (y.similarity = s) := by
          intro hys
          apply hr
          unfold simOrder
          rw [hys, hx]
        simp [hx, hy]
      · by_cases hy : y.similarity = s <;> simp [hx, hy]

/-- Filtering for one similarity value is invariant under the stable
sort: equal-similarity results keep their relative insertion order. -/
theorem filter_simEq_insertionSort (s : ℚ) (l : List SearchResult) :
    (l.insertionSort simOrder).filter (fun r => decide (r.similarity = s)) =
      l.filter (fun r => decide (r.similarity = s)) := by
  induction l with
  | nil => rfl
  | cons x t ih =>
    rw [List.insertionSort, filter_simEq_orderedInsert, ih, List.filter_cons]
    by_cases hx : x.similarity = s <;> simp [hx]

/-- Every search candidate comes from a stored document that scored
strictly above the 0.1 threshold, with the score as its similarity. -/
theorem mem_searchCandidates {docs : List Document} {q : Str} {r : SearchResult}
    (h : r ∈ searchCandidates docs q) :
    ∃ d ∈ docs, r = { document := d, similarity := calculateSimilarity q d,
                      relevantChunk := searchRelevantChunk q d.content } ∧
      mkRat 1 10 < r.similarity := by
  rcases List.mem_filterMap.mp h with ⟨d, hd, heq⟩
  dsimp only at heq
  split_ifs at heq with hc
  cases heq
  exact ⟨d, hd, rfl, hc⟩

/-- The candidate documents are a subsequence of the store (candidates
are produced by a single in-order scan). -/
theorem searchCandidates_doc_sublist (docs : List Document) (q : Str) :
    List.Sublist ((searchCandidates docs q).map SearchResult.document) docs := by
  induction docs with
  | nil => simp [searchCandidates]
  | cons d t ih =>
    unfold searchCandidates at *
    rw [List.filterMap_cons]
    dsimp only
    split_ifs
    · simpa using List.Sublist.cons₂ d ih
    · exact List.Sublist.cons d ih

/-- C1: for every store state, query and `k`, `search` returns at most
`k` results, each with similarity at least the 0.1 threshold (the filter
is in fact strict), sorted non-increasingly by similarity; ties keep the
insertion order: restricted to any one similarity value the output is a
subsequence of the in-order candidate scan, whose documents are in turn
a subsequence of the store. -/
theorem search_spec (docs : List Document) (q : Str) (k : Nat) :
    (search docs q k).length ≤ k ∧
    (∀ r ∈ search docs q k, (1 : ℚ)/10 ≤ r.similarity) ∧
    List.Sorted simOrder (search docs q k) ∧
    List.Sublist ((searchCandidates docs q).map SearchResult.document) docs ∧
    (∀ s : ℚ, List.Sublist
        ((search docs q k).filter (fun r => decide (r.similarity = s)))
        ((searchCandidates docs q).filter (fun r => decide (r.similarity = s)))) := by
  refine ⟨?_, ?_, ?_, searchCandidates_doc_sublist docs q, ?_⟩
  · unfold search
    rw [List.length_take]
    omega
  · intro r hr
    have hr2 : r ∈ (searchCandidates docs q).insertionSort simOrder :=
      (List.take_sublist _ _).subset hr
    have hr3 : r ∈ searchCandidates docs q :=
      (List.perm_insertionSort simOrder _).subset hr2
    obtain ⟨d, _, _, hgt⟩ := mem_searchCandidates hr3
    have hb : (1 : ℚ)/10 = mkRat 1 10 := by
      rw [Rat.mkRat_eq_div]
      norm_num
    rw [hb]
    linarith
  · have hs : List.Sorted simOrder ((searchCandidates docs q).insertionSort simOrder) :=
      List.sorted_insertionSort simOrder _
    exact List.Pairwise.sublist (List.take_sublist _ _) hs
  · intro s
    have h1 : List.Sublist
        ((search docs q k).filter (fun r => decide (r.similarity = s)))
        (((searchCandidates docs q).insertionSort simOrder).filter
          (fun r => decide (r.similarity = s))) :=
      List.Sublist.filter _ (List.take_sublist _ _)
    rw [filter_simEq_insertionSort] at h1
    exact h1

/-- The top search result on the demo store for the query
`"Was ist RAG?"`: the RAG document with score 2/3 and its best sentence. -/
def demoResultRAG : SearchResult :=
  { document := demoDocRAG, similarity := mkRat 2 3,
    relevantChunk := "RAG ist eine Technik".data }

/-- Witness for C1: on the demo store the RAG result is returned and the
theorem yields its similarity bound with the membership hypothesis
discharged concretely. -/
theorem search_spec_witness :
    (demoResultRAG ∈ search demoDocs ("Was ist RAG?".data) 3) ∧
    (1 : ℚ)/10 ≤ demoResultRAG.similarity :=
  ⟨by decide,
   (search_spec demoDocs ("Was ist RAG?".data) 3).2.1 demoResultRAG (by decide)⟩

/-- When no sentence beats the running best score, the scan keeps the
running best sentence. -/
theorem bestSentenceAux_le (qw : List Str) :
    ∀ (l : List Str) (b0 : Str) (sc0 : Nat),
      (∀ s ∈ l, sentenceScore qw s ≤ sc0) → bestSentenceAux qw l b0 sc0 = b0 := by
  intro l
  induction l with
  | nil => intro b0 sc0 _; rfl
  | cons s rest ih =>
    intro b0 sc0 hall
    unfold bestSentenceAux
    rw [if_neg (Nat.not_lt.mpr (hall s (List.mem_cons_self s rest)))]
    exact ih b0 sc0 (fun x hx => hall x (List.mem_cons_of_mem s hx))

/-- When some sentence beats the running best score, the scan returns the
trim of the first sentence attaining the maximal score: the result index
scores strictly above every earlier sentence and at least every later
one. -/
theorem bestSentenceAux_max (qw : List Str) :
    ∀ (l : List Str) (b0 : Str) (sc0 : Nat),
      (∃ s ∈ l, sc0 < sentenceScore qw s) →
      ∃ i, ∃ hi : i < l.length,
        bestSentenceAux qw l b0 sc0 = trim (l.get ⟨i, hi⟩) ∧
        sc0 < sentenceScore qw (l.get ⟨i, hi⟩) ∧
        (∀ s ∈ l, sentenceScore qw s ≤ sentenceScore qw (l.get ⟨i, hi⟩)) ∧
        (∀ j, ∀ hj : j < l.length, j < i →
          sentenceScore qw (l.get ⟨j, hj⟩) < sentenceScore qw (l.get ⟨i, hi⟩)) := by
  intro l
  induction l with
  | nil =>
    intro b0 sc0 hex
    simp at hex
  | cons s rest ih =>
    intro b0 sc0 hex
    unfold bestSentenceAux
    by_cases hs : sc0 < sentenceScore qw s
    · rw [if_pos hs]
      by_cases hrest : ∃ t ∈ rest, sentenceScore qw s < sentenceScore qw t
      · obtain ⟨i, hi, heq, hgt, hmax, hfirst⟩ := ih (trim s) (sentenceScore qw s) hrest
        refine ⟨i + 1, Nat.succ_lt_succ hi, ?_, ?_, ?_, ?_⟩
        · simpa using heq
        · simpa using lt_trans hs hgt
        · intro x hx
          rcases List.mem_cons.mp hx with rfl | hx2
          · simpa using le_of_lt hgt
          · simpa using hmax x hx2
        · intro j hj hji
          cases j with
          | zero => simpa using hgt
          | succ j2 =>
            have hj2 : j2 < rest.length := Nat.lt_of_succ_lt_succ hj
            simpa using hfirst j2 hj2 (Nat.lt_of_succ_lt_succ hji)
      · push_neg at hrest
        rw [bestSentenceAux_le qw rest (trim s) (sentenceScore qw s) hrest]
        refine ⟨0, Nat.succ_pos _, rfl, hs, ?_, ?_⟩
        · intro x hx
          rcases List.mem_cons.mp hx with rfl | hx2
          · exact le_rfl
          · exact hrest x hx2
        · intro j hj hji
          omega
    · rw [if_neg hs]
      have hex2 : ∃ t ∈ rest, sc0 < sentenceScore qw t := by
        rcases hex with ⟨x, hx, hscx⟩
        rcases List.mem_cons.mp hx with rfl | hx2
        · exact absurd hscx hs
        · exact ⟨x, hx2, hscx⟩
      obtain ⟨i, hi, heq, hgt, hmax, hfirst⟩ := ih b0 sc0 hex2
      refine ⟨i + 1, Nat.succ_lt_succ hi, ?_, ?_, ?_, ?_⟩
      · simpa using heq
      · simpa using hgt
      · intro x hx
        rcases List.mem_cons.mp hx with rfl | hx2
        · simpa using le_trans (Nat.not_lt.mp hs) (le_of_lt hgt)
        · simpa using hmax x hx2
      · intro j hj hji
        cases j with
        | zero => simpa using lt_of_le_of_lt (Nat.not_lt.mp hs) hgt
        | succ j2 =>
          have hj2 : j2 < rest.length := Nat.lt_of_succ_lt_succ hj
          simpa using hfirst j2 hj2 (Nat.lt_of_succ_lt_succ hji)

/-- A sentence that survived the whitespace filter has a non-empty trim. -/
theorem trim_nonempty_of_mem_sentencesOf {content s : Str}
    (hs : s ∈ sentencesOf content) : (trim s).isEmpty = false := by
  have h := (List.mem_filter.mp hs).2
  have hlen : 0 < (trim s).length := by simpa using h
  cases htrim : trim s with
  | nil => rw [htrim] at hlen; simp at hlen
  | cons c t => rfl

/-- C5: the snippet selector splits the content into sentences on the
terminators, discards whitespace-only fragments, and returns the trimmed
first sentence of maximal bidirectional-substring score when some
sentence scores above zero (strictly above every earlier sentence, at
least every later one); when every sentence scores zero it returns the
first 200 characters of the content followed by an ellipsis. -/
theorem searchRelevantChunk_spec (q content : Str) :
    ((∀ s ∈ sentencesOf content, sentenceScore (tokenizeLower q) s = 0) →
      searchRelevantChunk q content = content.take 200 ++ ['.', '.', '.']) ∧
    ((∃ s ∈ sentencesOf content, 0 < sentenceScore (tokenizeLower q) s) →
      ∃ i, ∃ hi : i < (sentencesOf content).length,
        searchRelevantChunk q content = trim ((sentencesOf content).get ⟨i, hi⟩) ∧
        (∀ s ∈ sentencesOf content,
          sentenceScore (tokenizeLower q) s ≤
            sentenceScore (tokenizeLower q) ((sentencesOf content).get ⟨i, hi⟩)) ∧
        (∀ j, ∀ hj : j < (sentencesOf content).length, j < i →
          sentenceScore (tokenizeLower q) ((sentencesOf content).get ⟨j, hj⟩) <
            sentenceScore (tokenizeLower q) ((sentencesOf content).get ⟨i, hi⟩))) := by
  constructor
  · intro hall
    unfold searchRelevantChunk
    dsimp only
    rw [show bestSentenceAux (tokenize (lowerStr q)) (sentencesOf content) [] 0 = [] from
      bestSentenceAux_le (tokenizeLower q) (sentencesOf content) [] 0
        (fun s hs => le_of_eq (hall s hs))]
    rfl
  · intro hex
    obtain ⟨i, hi, heq, _, hmax, hfirst⟩ :=
      bestSentenceAux_max (tokenizeLower q) (sentencesOf content) [] 0 hex
    refine ⟨i, hi, ?_, hmax, hfirst⟩
    unfold searchRelevantChunk
    dsimp only
    rw [show bestSentenceAux (tokenize (lowerStr q)) (sentencesOf content) [] 0 =
        trim ((sentencesOf content).get ⟨i, hi⟩) from heq]
    rw [trim_nonempty_of_mem_sentencesOf (List.get_mem (sentencesOf content) i hi)]
    exact if_neg (by simp)

/-- Witness for C5: the query `"zzz"` matches no sentence of
`"abc. def."`, so the selector falls back to the 200-character prefix
with an ellipsis. -/
theorem searchRelevantChunk_spec_witness :
    (∀ s ∈ sentencesOf ("abc. def.".data),
        sentenceScore (tokenizeLower ("zzz".data)) s = 0) ∧
    searchRelevantChunk ("zzz".data) ("abc. def.".data) =
      ("abc. def.".data).take 200 ++ ['.', '.', '.'] :=
  ⟨by decide, (searchRelevantChunk_spec ("zzz".data) ("abc. def.".data)).1 (by decide)⟩

/-- The positive side of C5 at a concrete input: for `"Was ist RAG?"` on
the demo content the best sentence is the first one. -/
example :
    searchRelevantChunk ("Was ist RAG?".data) demoDocRAG.content =
      "RAG ist eine Technik".data := by
  decide

/-- The square-summing fold only grows from a non-negative seed. -/
theorem foldl_sq_nonneg :
    ∀ (l : List ℝ) (init : ℝ), 0 ≤ init →
      0 ≤ l.foldl (fun s x => s + x * x) init := by
  intro l
  induction l with
  | nil => intro init h; exact h
  | cons y t ih =>
    intro init h
    exact ih (init + y * y) (add_nonneg h (mul_self_nonneg y))

/-- The sum of squares is non-negative. -/
theorem sumSquares_nonneg (l : List ℝ) : 0 ≤ sumSquares l :=
  foldl_sq_nonneg l 0 le_rfl

/-- The square-summing fold splits off its seed. -/
theorem foldl_sq_init :
    ∀ (l : List ℝ) (init : ℝ),
      l.foldl (fun s x => s + x * x) init = init + l.foldl (fun s x => s + x * x) 0 := by
  intro l
  induction l with
  | nil => intro init; simp
  | cons y t ih =>
    intro init
    show t.foldl _ (init + y * y) = init + t.foldl _ (0 + y * y)
    rw [ih (init + y * y), ih (0 + y * y)]
    ring

/-- A vector with a non-zero entry has a positive sum of squares. -/
theorem sumSquares_pos {l : List ℝ} {x : ℝ} (hx : x ∈ l) (hx0 : x ≠ 0) :
    0 < sumSquares l := by
  induction l with
  | nil => exact absurd hx (List.not_mem_nil x)
  | cons y t ih =>
    show 0 < t.foldl (fun s x => s + x * x) (0 + y * y)
    rw [foldl_sq_init t (0 + y * y)]
    rcases List.mem_cons.mp hx with rfl | hx2
    · have h1 : 0 < x * x := mul_self_pos.mpr hx0
      have h2 := foldl_sq_nonneg t 0 le_rfl
      linarith
    · have h1 := ih hx2
      have h2 : sumSquares t = t.foldl (fun s x => s + x * x) 0 := rfl
      have h3 := mul_self_nonneg y
      rw [h2] at h1
      linarith

/-- Zipping a list with itself pairs each entry with itself, so the dot
product of a vector with itself is its sum of squares. -/
theorem dotProduct_self (l : List ℝ) : dotProduct l l = sumSquares l := by
  unfold dotProduct sumSquares
  have h : ∀ (t : List ℝ) (init : ℝ),
      (t.zip t).foldl (fun s p => s + p.1 * p.2) init =
        t.foldl (fun s x => s + x * x) init := by
    intro t
    induction t with
    | nil => intro init; rfl
    | cons y r ih => intro init; exact ih (init + y * y)
  exact h l 0

/-- A vector with a non-zero entry has non-zero magnitude. -/
theorem magnitude_ne_zero {l : List ℝ} {x : ℝ} (hx : x ∈ l) (hx0 : x ≠ 0) :
    magnitude l ≠ 0 := by
  unfold magnitude
  have h := sumSquares_pos hx hx0
  have h2 : 0 < Real.sqrt (sumSquares l) := Real.sqrt_pos.mpr h
  linarith

/-- Counterexample for C4 as stated: the orthogonal unit vectors `[1,0]`
and `[0,1]` have non-zero magnitudes, yet the cosine similarity is `0`
because the dot product vanishes; so the similarity is not `0` only when
a magnitude is `0`. -/
theorem cosineSimilarity_zero_not_only_at_zero_magnitude :
    cosineSimilarity [1, 0] [0, 1] = some 0 ∧
    ¬ (magnitude [1, 0] = 0 ∨ magnitude [0, 1] = 0) := by
  have hm1 : magnitude [(1:ℝ), 0] = 1 := by
    unfold magnitude sumSquares
    norm_num
  have hm2 : magnitude [(0:ℝ), 1] = 1 := by
    unfold magnitude sumSquares
    norm_num
  constructor
  · unfold cosineSimilarity
    rw [if_neg (by norm_num)]
    rw [if_neg (by rw [hm1, hm2]; norm_num)]
    unfold dotProduct
    norm_num
  · rw [hm1, hm2]
    norm_num

/-- C4, amended: the cosine similarity of equal-length vectors is `0`
whenever one of the magnitudes is `0` (the division guard) — it can also
be `0` for orthogonal non-zero vectors — and the cosine similarity of a
non-zero vector with itself is exactly `1`. -/
theorem cosineSimilarity_spec (a b : List ℝ) :
    (a.length = b.length → magnitude a = 0 ∨ magnitude b = 0 →
      cosineSimilarity a b = some 0) ∧
    ((∃ x ∈ a, x ≠ 0) → cosineSimilarity a a = some 1) := by
  constructor
  · intro hlen hmag
    unfold cosineSimilarity
    rw [if_neg (not_not_intro hlen), if_pos hmag]
  · intro hx
    obtain ⟨x, hxa, hx0⟩ := hx
    have hmag : magnitude a ≠ 0 := magnitude_ne_zero hxa hx0
    unfold cosineSimilarity
    rw [if_neg (not_not_intro rfl)]
    rw [if_neg (by rw [or_self]; exact hmag)]
    have hdot : dotProduct a a = sumSquares a := dotProduct_self a
    have hsq : magnitude a * magnitude a = sumSquares a :=
      Real.mul_self_sqrt (sumSquares_nonneg a)
    have hne : sumSquares a ≠ 0 := by
      intro h
      apply hmag
      unfold magnitude
      rw [h, Real.sqrt_zero]
    rw [hdot, hsq, div_self hne]

/-- Witness for the amended C4 at the concrete non-zero vector `[1]`:
its self-similarity is exactly `1`. -/
theorem cosineSimilarity_spec_witness :
    cosineSimilarity [(1:ℝ)] [(1:ℝ)] = some 1 :=
  (cosineSimilarity_spec [(1:ℝ)] [(1:ℝ)]).2
    ⟨1, List.mem_singleton.mpr rfl, one_ne_zero⟩

